import Mathlib

/-!
Verification of the auraxpro-agent conversation persistence and streaming
subsystem against its specification.

The definitions below are a shallow embedding of:
  - src/lib/conversation-db.ts  (Message Record Store, Conversation
    Directory, Legacy Store Migrator) — file src/unnamed/part_000;
  - src/lib/store.ts            (deprecated localStorage history);
  - src/app/api/chat/route.ts   (streaming relay endpoint) — file
    src/unnamed/part_003;
  - the send path of src/components/Chat.tsx (function ask).

Modelling conventions:
  - IndexedDB is modelled as a list of records in insertion (primary key)
    order together with the next auto-increment key; the by-conversation
    index getAll returns records of that conversation in primary-key
    order, which the code then sorts.
  - JavaScript Array.prototype.sort is stable (ECMA-262); it is modelled
    by List.insertionSort with the non-strict comparator, which places an
    inserted element before the first element it compares less-or-equal
    to and therefore preserves the relative order of ties in the same
    way.
  - Role strings are plain strings, as at the TypeScript runtime (the
    union type user | assistant | system is not checked at runtime and
    the migrator casts unchecked).
  - Numeric timestamps are Nat (milliseconds since epoch); the JavaScript
    falsiness of a numeric field f in the idiom f or Date.now() is
    modelled as the test f = 0.
  - Async functions that can throw become functions into Except String.
  - Each batch of Date.now() calls inside one operation is modelled as a
    single instant passed as a parameter.
-/

set_option maxRecDepth 100000

namespace Aurax

/-- ChatMessage from src/lib/conversation-db.ts, after the store has
assigned the auto-increment surrogate key id. -/
structure ChatMessage where
  id : Nat
  conversationId : String
  role : String
  content : String
  ts : Nat
deriving DecidableEq

/-- A message before insertion: Omit ChatMessage id. -/
structure NewMessage where
  conversationId : String
  role : String
  content : String
  ts : Nat
deriving DecidableEq

/-- The IndexedDB object store auraxpro-ai-conversations / messages:
records in primary-key (insertion) order plus the next auto-increment
key (IndexedDB auto-increment keys start at 1). -/
structure DB where
  messages : List ChatMessage
  nextId : Nat
deriving DecidableEq

def emptyDB : DB := ⟨[], 1⟩

/-- The error thrown by getDB when typeof window is undefined. -/
def envError : String := "IndexedDB is only available in browser environment"

/-- saveMessage from conversation-db.ts: fails fast outside a browser,
otherwise assigns the next key and appends; a zero (falsy) ts is
replaced by Date.now(). -/
def saveMessage (browserEnv : Bool) (now : Nat) (message : NewMessage) (db : DB) :
    Except String (DB × Nat) :=
  if !browserEnv then .error envError
  else
    let stored : ChatMessage :=
      ⟨db.nextId, message.conversationId, message.role, message.content,
        if message.ts = 0 then now else message.ts⟩
    .ok (⟨db.messages ++ [stored], db.nextId + 1⟩, db.nextId)

/-- The ascending stable sort messages.sort of loadConversation, with
comparator a.ts - b.ts. -/
def sortByTs (l : List ChatMessage) : List ChatMessage :=
  List.insertionSort (fun a b => a.ts ≤ b.ts) l

/-- loadConversation from conversation-db.ts: index getAll of the
conversation (primary-key order) followed by a stable sort on ts. -/
def loadConversation (browserEnv : Bool) (db : DB) (conversationId : String) :
    Except String (List ChatMessage) :=
  if !browserEnv then .error envError
  else .ok (sortByTs (db.messages.filter (fun m => m.conversationId == conversationId)))

/-- JavaScript messages.slice (-limit): the last limit elements, the
whole array when limit is 0 (slice of -0 is slice of 0). -/
def sliceLast (l : List ChatMessage) (limit : Nat) : List ChatMessage :=
  if limit = 0 then l else l.drop (l.length - limit)

/-- getRecentMessages from conversation-db.ts. -/
def getRecentMessages (browserEnv : Bool) (db : DB) (conversationId : String)
    (limit : Nat) : Except String (List ChatMessage) :=
  (loadConversation browserEnv db conversationId).map (fun messages => sliceLast messages limit)

/-- clearConversation from conversation-db.ts: deletes every record whose
key was returned by the by-conversation index. -/
def clearConversation (browserEnv : Bool) (db : DB) (conversationId : String) :
    Except String DB :=
  if !browserEnv then .error envError
  else .ok ⟨db.messages.filter (fun m => !(m.conversationId == conversationId)), db.nextId⟩

/-- listConversations from conversation-db.ts: distinct conversation ids;
a JavaScript Set iterates in first-insertion order, so duplicates after
the first occurrence are dropped. -/
def listConversations (browserEnv : Bool) (db : DB) : Except String (List String) :=
  if !browserEnv then .error envError
  else .ok ((db.messages.map (·.conversationId)).eraseDups)

/-- Result record of getConversationMetadata. -/
structure ConversationMetadata where
  messageCount : Nat
  lastActivity : Nat
  firstMessage : Option String
deriving DecidableEq

/-- getConversationMetadata from conversation-db.ts. The source sorts the
loaded array in place with comparator b.ts - a.ts, so the subsequent
messages.find runs over the descending-sorted array: the model applies
find to the descending sort, exactly as the aliased mutation does. -/
def getConversationMetadata (browserEnv : Bool) (db : DB) (conversationId : String) :
    Except String ConversationMetadata := do
  let messages ← loadConversation browserEnv db conversationId
  match List.insertionSort (fun a b => b.ts ≤ a.ts) messages with
  | [] => return ⟨0, 0, none⟩
  | lastMessage :: rest =>
    let sortedMessages := lastMessage :: rest
    let firstUserMessage := sortedMessages.find? (fun m => m.role == "user")
    return ⟨messages.length, lastMessage.ts,
      firstUserMessage.map (fun m => m.content.take 100)⟩

/-- Summary row of listConversationsWithMetadata. -/
structure ConversationSummary where
  conversationId : String
  messageCount : Nat
  lastActivity : Nat
  firstMessage : Option String
deriving DecidableEq

/-- listConversationsWithMetadata from conversation-db.ts: metadata for
every conversation id, sorted by lastActivity descending (stable). -/
def listConversationsWithMetadata (browserEnv : Bool) (db : DB) :
    Except String (List ConversationSummary) := do
  let conversationIds ← listConversations browserEnv db
  let conversations ← conversationIds.mapM (fun id => do
    let metadata ← getConversationMetadata browserEnv db id
    return ConversationSummary.mk id metadata.messageCount metadata.lastActivity
      metadata.firstMessage)
  return List.insertionSort (fun a b => b.lastActivity ≤ a.lastActivity) conversations

/-- A record of the deprecated flat history format of src/lib/store.ts:
role, content, and an optional ts. -/
structure LegacyMessage where
  role : String
  content : String
  ts : Option Nat
deriving DecidableEq

/-- The content of localStorage under auraxpro_ai_history_v1, as the
migrator observes it: absent (getItem null), corrupt (JSON.parse throws
or the parse does not yield an array), or a parsed array of entries. -/
inductive LegacyBlob
  | absent
  | corrupt
  | entries (msgs : List LegacyMessage)
deriving DecidableEq

/-- The sentinel conversation id used by the migrator. -/
def migratedConversationId : String := "conversation-migrated"

/-- One loop step of migrateFromLocalStorage: entries with a falsy role
or content are skipped; the saved ts is msg.ts or Date.now(), so a
missing or zero legacy ts becomes now (saveMessage applies the same
falsiness test again, to the same effect). The error branch mirrors the
surrounding catch and is unreachable when the browser environment is
present. -/
def migrateStep (now : Nat) (db : DB) (msg : LegacyMessage) : DB :=
  if msg.role != "" && msg.content != "" then
    match saveMessage true now
        ⟨migratedConversationId, msg.role, msg.content, msg.ts.getD 0⟩ db with
    | .ok (db2, _) => db2
    | .error _ => db
  else db

/-- migrateFromLocalStorage from conversation-db.ts: a silent no-op
outside a browser; nothing to do on an absent, corrupt, or empty blob;
a no-op when the sentinel conversation already has turns; otherwise each
well-formed entry is appended in order. All errors are swallowed by the
enclosing catch. -/
def migrateFromLocalStorage (browserEnv : Bool) (blob : LegacyBlob) (now : Nat)
    (db : DB) : DB :=
  if !browserEnv then db
  else match blob with
    | .absent => db
    | .corrupt => db
    | .entries oldMessages =>
      if oldMessages.isEmpty then db
      else match loadConversation browserEnv db migratedConversationId with
        | .error _ => db
        | .ok existing =>
          if existing.length > 0 then db
          else oldMessages.foldl (migrateStep now) db

/-- loadHistory from src/lib/store.ts: outside a browser it returns an
empty list; a missing key parses the fallback literal as the empty list;
a parse failure is caught and degrades to the empty list. -/
def loadHistory (browserEnv : Bool) (blob : LegacyBlob) : List LegacyMessage :=
  if !browserEnv then []
  else match blob with
    | .absent => []
    | .corrupt => []
    | .entries msgs => msgs

/-- A role and content pair as sent to the relay endpoint. -/
structure RelayMessage where
  role : String
  content : String
deriving DecidableEq

/-- The messages field of the request body of the relay endpoint, as the
validation in route.ts distinguishes it: missing or otherwise falsy, a
non-array value, or an array. -/
inductive MessagesField
  | absent
  | nonArray
  | array (msgs : List RelayMessage)
deriving DecidableEq

/-- The error object thrown by the provider SDK: an optional HTTP status,
an optional error code, and a message (the empty string models a falsy
or missing message). -/
structure ProviderError where
  status : Option Nat
  code : Option String
  message : String
deriving DecidableEq

/-- A JSON body of the shape produced by JSON.stringify on a one-field
error object (no escaping is needed for the messages the route emits). -/
def jsonError (msg : String) : String := "\x7b\"error\":\"" ++ msg ++ "\"\x7d"

/-- The observable response of the relay route: HTTP status, body (the
concatenated text for the streaming success case, a JSON error object
otherwise), and whether the provider was contacted. -/
structure PostResult where
  status : Nat
  body : String
  contactedProvider : Bool
deriving DecidableEq

/-- The error mapping of the catch block of route.ts. -/
def mapProviderError (e : ProviderError) : String × Nat :=
  if e.status == some 429 then
    if e.code == some "insufficient_quota" then
      ("API quota exceeded. Please check your OpenAI billing.", 429)
    else
      ("Rate limit exceeded. Please try again later.", 429)
  else if e.status == some 401 then
    ("Invalid API key. Please check your server configuration.", 401)
  else if e.message != "" then (e.message, 500)
  else ("Failed to get response", 500)

/-- The text a client reading the ReadableStream of the route to completion
receives: the concatenation of the delta content tokens, empty tokens
being skipped by the enqueue guard (the concatenation is unchanged by
the skip). -/
def streamBody (chunks : List String) : String :=
  String.join (chunks.filter (fun t => t != ""))

/-- POST from src/app/api/chat/route.ts. The provider call outcome is a
parameter: ok with the list of delta content tokens of the stream, or an
error thrown before streaming begins. The request is rejected with 400
before any provider contact when the messages field is missing, not an
array, or empty; otherwise the last 50 messages are forwarded. -/
def POST (field : MessagesField) (kbContext : Option String)
    (provider : Except ProviderError (List String)) : PostResult :=
  match field with
  | .absent => ⟨400, jsonError "Messages array is required", false⟩
  | .nonArray => ⟨400, jsonError "Messages array is required", false⟩
  | .array msgs =>
    if msgs.isEmpty then ⟨400, jsonError "Messages array is required", false⟩
    else
      match provider with
      | .ok chunks => ⟨200, streamBody chunks, true⟩
      | .error e =>
        let mapped := mapProviderError e
        ⟨mapped.2, jsonError mapped.1, true⟩

/-- Whether pre is a prefix of s (String.prototype.startsWith). -/
def strStartsWith (pre s : String) : Bool := pre.data.isPrefixOf s.data

/-- Whether suf is a suffix of s (String.prototype.endsWith). -/
def strEndsWith (suf s : String) : Bool := suf.data.reverse.isPrefixOf s.data.reverse

/-- Whether needle occurs as a contiguous substring of hay. -/
def strContainsSub (needle hay : String) : Bool :=
  hay.data.tails.any (fun t => needle.data.isPrefixOf t)

/-- The res.json() read of the error field by the client on a non-ok
response, for bodies of the one-field shape the route produces. -/
def extractErrorField (body : String) : Option String :=
  let pre := "\x7b\"error\":\""
  let suf := "\"\x7d"
  if strStartsWith pre body && strEndsWith suf body then
    some ((body.drop pre.length).dropRight suf.length)
  else none

/-- String.prototype.trim of the input text: leading and trailing
whitespace characters removed. -/
def jsTrim (s : String) : String :=
  ⟨((s.data.dropWhile Char.isWhitespace).reverse.dropWhile Char.isWhitespace).reverse⟩

/-- The error turn content synthesized by the catch block of ask in
Chat.tsx. -/
def errorTurnContent (errorMessage : String) : String :=
  "❌ **Error:** " ++ errorMessage ++
    "\n\nIf this is a quota or billing issue, please check your OpenAI account settings."

/-- The send path ask of src/components/Chat.tsx against the store and
the relay route, in a browser environment: empty or whitespace-only
input is rejected before any effect (the loading gate concerns an
already outstanding send and is outside this sequential model); the user
turn is saved first; the last 50 turns are fetched as the request
payload; on a 200 response the accumulated stream text is saved as the
assistant turn; on a non-ok response the parsed error message (or the
raw text, or the fallbacks for falsy messages) is wrapped by the catch
into an error turn and saved. Store errors cannot occur with the browser
environment present, so the corresponding catch arms are unreachable. -/
def ask (db : DB) (conversationId : String) (input : String) (kbCtx : String)
    (provider : Except ProviderError (List String)) (now : Nat) : DB :=
  if jsTrim input == "" then db
  else
    let userMessage := jsTrim input
    match saveMessage true now ⟨conversationId, "user", userMessage, now⟩ db with
    | .error _ => db
    | .ok (db1, _) =>
      match getRecentMessages true db1 conversationId 50 with
      | .error _ => db1
      | .ok recentMessages =>
        let messagesForAPI := recentMessages.map (fun m => RelayMessage.mk m.role m.content)
        let res := POST (.array messagesForAPI) (some kbCtx) provider
        if res.status == 200 then
          match saveMessage true now ⟨conversationId, "assistant", res.body, now⟩ db1 with
          | .ok (db2, _) => db2
          | .error _ => db1
        else
          let errorMessage :=
            match extractErrorField res.body with
            | some e => if e != "" then e else "Failed to get response"
            | none => res.body
          let finalMessage :=
            if errorMessage != "" then errorMessage
            else "Something went wrong. Please try again."
          match saveMessage true now
              ⟨conversationId, "assistant", errorTurnContent finalMessage, now⟩ db1 with
          | .ok (db2, _) => db2
          | .error _ => db1

/-- The error message the catch block of ask ends up with when the fetch
returned the non-ok response the route produces for a provider error e:
the parsed error field, with the fallbacks for falsy values. -/
def clientErrorMessage (e : ProviderError) : String :=
  let body := jsonError (mapProviderError e).1
  let errorMessage :=
    match extractErrorField body with
    | some s => if s != "" then s else "Failed to get response"
    | none => body
  if errorMessage != "" then errorMessage else "Something went wrong. Please try again."

end Aurax

namespace Aurax

lemma sortByTs_length (l : List ChatMessage) : (sortByTs l).length = l.length :=
  (List.perm_insertionSort _ l).length_eq

lemma sortByTs_nil : sortByTs [] = [] := rfl

lemma sliceLast_ne_nil {l : List ChatMessage} (h : l ≠ []) : sliceLast l 50 ≠ [] := by
  have hl : 0 < l.length := List.length_pos.mpr h
  have : (sliceLast l 50).length = l.length - (l.length - 50) := by
    simp [sliceLast, List.length_drop]
  intro hnil
  rw [hnil] at this
  simp at this
  omega

lemma errorTurnContent_ne_empty (s : String) : errorTurnContent s ≠ "" := by
  intro h
  have hlen := congrArg String.length h
  simp [errorTurnContent, String.length_append] at hlen
  exact absurd hlen.1.1 (by decide)

/-- The user turn ask appends first. -/
def userTurn (db : DB) (conversationId input : String) (now : Nat) : ChatMessage :=
  ⟨db.nextId, conversationId, "user", jsTrim input, now⟩

/-- The store after ask has appended the user turn. -/
def dbAfterUser (db : DB) (conversationId input : String) (now : Nat) : DB :=
  ⟨db.messages ++ [userTurn db conversationId input now], db.nextId + 1⟩

lemma saveMessage_true (now : Nat) (message : NewMessage) (db : DB) :
    saveMessage true now message db =
      .ok (⟨db.messages ++
        [⟨db.nextId, message.conversationId, message.role, message.content,
          if message.ts = 0 then now else message.ts⟩], db.nextId + 1⟩, db.nextId) := rfl

lemma ask_payload_ne_nil (db : DB) (conversationId input : String) (now : Nat) :
    ∀ r, getRecentMessages true (dbAfterUser db conversationId input now) conversationId 50
        = .ok r → r ≠ [] := by
  intro r hr
  have hfil : (dbAfterUser db conversationId input now).messages.filter
      (fun m => m.conversationId == conversationId) ≠ [] := by
    intro hnil
    have hmem : userTurn db conversationId input now ∈
        (dbAfterUser db conversationId input now).messages.filter
          (fun m => m.conversationId == conversationId) := by
      apply List.mem_filter.mpr
      refine ⟨List.mem_append_right _ (List.mem_singleton_self _), ?_⟩
      simp [userTurn]
    rw [hnil] at hmem
    exact List.not_mem_nil _ hmem
  have hsort : sortByTs ((dbAfterUser db conversationId input now).messages.filter
      (fun m => m.conversationId == conversationId)) ≠ [] := by
    intro hnil
    have := sortByTs_length ((dbAfterUser db conversationId input now).messages.filter
      (fun m => m.conversationId == conversationId))
    rw [hnil] at this
    exact hfil (List.length_eq_zero.mp this.symm)
  have : r = sliceLast (sortByTs ((dbAfterUser db conversationId input now).messages.filter
      (fun m => m.conversationId == conversationId))) 50 := by
    simpa [getRecentMessages, loadConversation, Except.map] using hr.symm
  rw [this]
  exact sliceLast_ne_nil hsort

lemma ask_ok_eq (db : DB) (conversationId input kbCtx : String) (cs : List String)
    (now : Nat) (h : jsTrim input ≠ "") :
    ask db conversationId input kbCtx (.ok cs) now =
      ⟨db.messages ++ [userTurn db conversationId input now,
        ⟨db.nextId + 1, conversationId, "assistant", streamBody cs, now⟩],
       db.nextId + 2⟩ := by
  have hbeq : (jsTrim input == "") = false := beq_eq_false_iff_ne.mpr h
  have hsave : saveMessage true now ⟨conversationId, "user", jsTrim input, now⟩ db =
      .ok (dbAfterUser db conversationId input now, db.nextId) := by
    rw [saveMessage_true]
    simp [dbAfterUser, userTurn, ite_self]
  have hrecent : getRecentMessages true (dbAfterUser db conversationId input now)
      conversationId 50 = .ok (sliceLast (sortByTs
        ((dbAfterUser db conversationId input now).messages.filter
          (fun m => m.conversationId == conversationId))) 50) := by
    simp [getRecentMessages, loadConversation, Except.map]
  have hne := ask_payload_ne_nil db conversationId input now _ hrecent
  have hmapne : (sliceLast (sortByTs
      ((dbAfterUser db conversationId input now).messages.filter
        (fun m => m.conversationId == conversationId))) 50).map
        (fun m => RelayMessage.mk m.role m.content) ≠ [] := by
    simpa using hne
  have hisEmpty : ((sliceLast (sortByTs
      ((dbAfterUser db conversationId input now).messages.filter
        (fun m => m.conversationId == conversationId))) 50).map
        (fun m => RelayMessage.mk m.role m.content)).isEmpty = false := by
    simp [List.isEmpty_iff, hmapne]
  unfold ask
  simp only [hbeq, Bool.false_eq_true, if_false, hsave, hrecent]
  simp only [POST, hisEmpty, Bool.false_eq_true, if_false]
  simp only [saveMessage_true]
  simp [dbAfterUser, userTurn, ite_self, List.append_assoc]

lemma ask_error_eq (db : DB) (conversationId input kbCtx : String) (e : ProviderError)
    (now : Nat) (h : jsTrim input ≠ "") :
    ask db conversationId input kbCtx (.error e) now =
      ⟨db.messages ++ [userTurn db conversationId input now,
        ⟨db.nextId + 1, conversationId, "assistant",
          errorTurnContent (clientErrorMessage e), now⟩],
       db.nextId + 2⟩ := by
  have hbeq : (jsTrim input == "") = false := beq_eq_false_iff_ne.mpr h
  have hsave : saveMessage true now ⟨conversationId, "user", jsTrim input, now⟩ db =
      .ok (dbAfterUser db conversationId input now, db.nextId) := by
    rw [saveMessage_true]
    simp [dbAfterUser, userTurn, ite_self]
  have hrecent : getRecentMessages true (dbAfterUser db conversationId input now)
      conversationId 50 = .ok (sliceLast (sortByTs
        ((dbAfterUser db conversationId input now).messages.filter
          (fun m => m.conversationId == conversationId))) 50) := by
    simp [getRecentMessages, loadConversation, Except.map]
  have hne := ask_payload_ne_nil db conversationId input now _ hrecent
  have hstatus : ((mapProviderError e).2 == 200) = false := by
    unfold mapProviderError
    split_ifs <;> simp
  have hmapne : (sliceLast (sortByTs
      ((dbAfterUser db conversationId input now).messages.filter
        (fun m => m.conversationId == conversationId))) 50).map
        (fun m => RelayMessage.mk m.role m.content) ≠ [] := by
    simpa using hne
  have hisEmpty : ((sliceLast (sortByTs
      ((dbAfterUser db conversationId input now).messages.filter
        (fun m => m.conversationId == conversationId))) 50).map
        (fun m => RelayMessage.mk m.role m.content)).isEmpty = false := by
    simp [List.isEmpty_iff, hmapne]
  unfold ask
  simp only [hbeq, Bool.false_eq_true, if_false, hsave, hrecent]
  simp only [POST, hisEmpty, Bool.false_eq_true, if_false]
  simp only [hstatus, Bool.false_eq_true, if_false]
  simp only [saveMessage_true]
  simp only [clientErrorMessage]
  simp [dbAfterUser, userTurn, ite_self, List.append_assoc]

/-- Whether a legacy entry passes the migration guard (truthy role and
content). -/
def legacyValid (msg : LegacyMessage) : Bool := msg.role != "" && msg.content != ""

/-- The timestamp a migrated entry is stored with: the original one when
present and nonzero, else the migration instant. -/
def migratedTs (now : Nat) (msg : LegacyMessage) : Nat :=
  match msg.ts with
  | some t => if t = 0 then now else t
  | none => now

/-- Projection of a stored turn to its role, content and timestamp. -/
def proj3 (m : ChatMessage) : String × String × Nat := (m.role, m.content, m.ts)

/-- The projected turn a legacy entry migrates to. -/
def legacyProj (now : Nat) (msg : LegacyMessage) : String × String × Nat :=
  (msg.role, msg.content, migratedTs now msg)

lemma migratedTs_eq (now : Nat) (msg : LegacyMessage) :
    (if msg.ts.getD 0 = 0 then now else msg.ts.getD 0) = migratedTs now msg := by
  obtain ⟨r, c, ts⟩ := msg
  cases ts <;> simp [migratedTs]

lemma migrateStep_valid (now : Nat) (db : DB) (msg : LegacyMessage)
    (h : legacyValid msg = true) :
    migrateStep now db msg =
      ⟨db.messages ++ [⟨db.nextId, migratedConversationId, msg.role, msg.content,
        migratedTs now msg⟩], db.nextId + 1⟩ := by
  unfold migrateStep
  unfold legacyValid at h
  simp only [h, if_true, saveMessage_true, migratedTs_eq]

lemma migrateStep_invalid (now : Nat) (db : DB) (msg : LegacyMessage)
    (h : legacyValid msg = false) :
    migrateStep now db msg = db := by
  unfold migrateStep
  unfold legacyValid at h
  simp only [h, Bool.false_eq_true, if_false]

lemma fold_migrate_proj (now : Nat) :
    ∀ (ms : List LegacyMessage) (db : DB),
    ((ms.foldl (migrateStep now) db).messages.filter
        (fun m => m.conversationId == migratedConversationId)).map proj3
      = (db.messages.filter (fun m => m.conversationId == migratedConversationId)).map proj3
        ++ (ms.filter legacyValid).map (legacyProj now) := by
  intro ms
  induction ms with
  | nil => intro db; simp
  | cons msg ms ih =>
    intro db
    rw [List.foldl_cons]
    cases hv : legacyValid msg with
    | false =>
      rw [migrateStep_invalid now db msg hv, ih db]
      simp [List.filter_cons, hv]
    | true =>
      rw [migrateStep_valid now db msg hv, ih _]
      simp [List.filter_cons, hv, List.filter_append, proj3, legacyProj,
        migratedConversationId, List.append_assoc]

lemma fold_migrate_invalid (now : Nat) :
    ∀ (ms : List LegacyMessage), (∀ msg ∈ ms, legacyValid msg = false) →
    ∀ db : DB, ms.foldl (migrateStep now) db = db := by
  intro ms
  induction ms with
  | nil => intro _ db; rfl
  | cons msg ms ih =>
    intro h db
    rw [List.foldl_cons, migrateStep_invalid now db msg (h msg (List.mem_cons_self msg ms))]
    exact ih (fun m hm => h m (List.mem_cons_of_mem msg hm)) db

/-- Strict lexicographic order on turns: earlier timestamp, or equal
timestamp and smaller surrogate key. -/
def turnLexLt (a b : ChatMessage) : Prop := a.ts < b.ts ∨ (a.ts = b.ts ∧ a.id < b.id)

lemma turnLexLt_of_le_lt {a b : ChatMessage} (hts : a.ts ≤ b.ts) (hid : a.id < b.id) :
    turnLexLt a b := by
  rcases Nat.lt_or_ge a.ts b.ts with h | h
  · exact Or.inl h
  · exact Or.inr ⟨Nat.le_antisymm hts h, hid⟩

lemma turnLexLt_ts_le {a b : ChatMessage} (h : turnLexLt a b) : a.ts ≤ b.ts := by
  rcases h with h | ⟨h, _⟩
  · exact Nat.le_of_lt h
  · exact Nat.le_of_eq h

lemma pairwise_orderedInsert (a : ChatMessage) :
    ∀ L : List ChatMessage, L.Pairwise turnLexLt → (∀ b ∈ L, a.id < b.id) →
    (L.orderedInsert (fun x y => x.ts ≤ y.ts) a).Pairwise turnLexLt := by
  intro L
  induction L with
  | nil => intro _ _; simp [List.orderedInsert]
  | cons b L ih =>
    intro hL ha
    rw [List.orderedInsert]
    by_cases hab : a.ts ≤ b.ts
    · rw [if_pos hab]
      apply List.pairwise_cons.mpr
      refine ⟨?_, hL⟩
      intro c hc
      rcases List.mem_cons.mp hc with rfl | hc
      · exact turnLexLt_of_le_lt hab (ha c (List.mem_cons_self c L))
      · have hbc := (List.pairwise_cons.mp hL).1 c hc
        exact turnLexLt_of_le_lt (Nat.le_trans hab (turnLexLt_ts_le hbc))
          (ha c (List.mem_cons_of_mem b hc))
    · rw [if_neg hab]
      apply List.pairwise_cons.mpr
      constructor
      · intro c hc
        rcases (List.mem_orderedInsert _).mp hc with rfl | hc
        · exact Or.inl (Nat.lt_of_not_le hab)
        · exact (List.pairwise_cons.mp hL).1 c hc
      · exact ih (List.pairwise_cons.mp hL).2
          (fun c hc => ha c (List.mem_cons_of_mem b hc))

lemma pairwise_sortByTs :
    ∀ L : List ChatMessage, L.Pairwise (fun a b => a.id < b.id) →
    (sortByTs L).Pairwise turnLexLt := by
  intro L
  induction L with
  | nil => intro _; simp [sortByTs]
  | cons a L ih =>
    intro hL
    have h1 := (List.pairwise_cons.mp hL).1
    have h2 := (List.pairwise_cons.mp hL).2
    show (List.orderedInsert _ a (List.insertionSort _ L)).Pairwise turnLexLt
    apply pairwise_orderedInsert a _ (ih h2)
    intro b hb
    exact h1 b ((List.perm_insertionSort _ L).mem_iff.mp hb)

lemma migrate_entries (ms : List LegacyMessage) (now : Nat) (db : DB) :
    migrateFromLocalStorage true (.entries ms) now db =
      if ms.isEmpty then db
      else if (db.messages.filter
          (fun m => m.conversationId == migratedConversationId)).length > 0 then db
      else ms.foldl (migrateStep now) db := by
  unfold migrateFromLocalStorage
  simp only [Bool.not_true, Bool.false_eq_true, if_false, loadConversation, sortByTs_length]

end Aurax

namespace Aurax

/-- Claim C3: outside a user-agent (browser) environment every write
operation of the Message Record Store (saveMessage, clearConversation)
and every non-hydration read (loadConversation, getRecentMessages,
listConversations) fails fast with the environment-unavailable error,
while the read paths used during initial hydration — the legacy
loadHistory and the migrator — degrade to an empty result or a silent
no-op instead of failing. -/
theorem envUnavailableFailFast :
    ∀ (db : DB) (message : NewMessage) (conversationId : String) (blob : LegacyBlob)
      (now : Nat),
    saveMessage false now message db = .error envError ∧
    clearConversation false db conversationId = .error envError ∧
    loadConversation false db conversationId = .error envError ∧
    getRecentMessages false db conversationId 50 = .error envError ∧
    listConversations false db = .error envError ∧
    loadHistory false blob = [] ∧
    migrateFromLocalStorage false blob now db = db :=
  fun _ _ _ _ _ => ⟨rfl, rfl, rfl, rfl, rfl, rfl, rfl⟩

/-- Claim C10: a request to the relay endpoint whose messages field is
missing, not an array, or an empty array is answered with status 400 and
the JSON body with error Messages array is required, and the provider is
never contacted. -/
theorem postRejectsMissingMessages :
    ∀ (kbContext : Option String) (provider : Except ProviderError (List String)),
    POST .absent kbContext provider
        = ⟨400, jsonError "Messages array is required", false⟩ ∧
    POST .nonArray kbContext provider
        = ⟨400, jsonError "Messages array is required", false⟩ ∧
    POST (.array []) kbContext provider
        = ⟨400, jsonError "Messages array is required", false⟩ :=
  fun _ _ => ⟨rfl, rfl, rfl⟩

/-- Claim C2 (code bug evaluation): on a conversation whose first user
turn has content a at ts 1000 and whose second user turn has content b
at ts 2000, getConversationMetadata reports firstMessage b — the content
of the chronologically last user turn, not the first — because the
in-place descending sort aliases the array the find runs over. -/
theorem firstMessagePreviewIsLatestUserTurn :
    getConversationMetadata true
        ⟨[⟨1, "c1", "user", "a", 1000⟩, ⟨2, "c1", "user", "b", 2000⟩], 3⟩ "c1"
      = .ok ⟨2, 2000, some "b"⟩ ∧
    getConversationMetadata true
        ⟨[⟨1, "c1", "user", "a", 1000⟩, ⟨2, "c1", "user", "b", 2000⟩], 3⟩ "c1"
      ≠ .ok ⟨2, 2000, some "a"⟩ := by
  constructor
  · rfl
  · intro h
    rw [show getConversationMetadata true
        ⟨[⟨1, "c1", "user", "a", 1000⟩, ⟨2, "c1", "user", "b", 2000⟩], 3⟩ "c1"
      = .ok ⟨2, 2000, some "b"⟩ from rfl] at h
    simp at h

/-- Claim C5: the Legacy Store Migrator is idempotent — for every
environment, legacy blob and store state, running it twice in a row (at
any two instants) equals running it once, the second run being detected
as a no-op through the prior effect on the sentinel conversation. -/
theorem migrationIdempotent :
    ∀ (browserEnv : Bool) (blob : LegacyBlob) (now1 now2 : Nat) (db : DB),
    migrateFromLocalStorage browserEnv blob now2
        (migrateFromLocalStorage browserEnv blob now1 db)
      = migrateFromLocalStorage browserEnv blob now1 db := by
  intro browserEnv blob now1 now2 db
  cases browserEnv with
  | false => rfl
  | true =>
    cases blob with
    | absent => rfl
    | corrupt => rfl
    | entries ms =>
      by_cases hms : ms.isEmpty = true
      · simp [migrate_entries, hms]
      · rw [migrate_entries ms now1 db]
        by_cases hpre : (db.messages.filter
            (fun m => m.conversationId == migratedConversationId)).length > 0
        · rw [if_neg hms, if_pos hpre, migrate_entries, if_neg hms, if_pos hpre]
        · rw [if_neg hms, if_neg hpre, migrate_entries, if_neg hms]
          have hdb0 : db.messages.filter
              (fun m => m.conversationId == migratedConversationId) = [] :=
            List.length_eq_zero.mp (Nat.eq_zero_of_not_pos hpre)
          have hproj := fold_migrate_proj now1 ms db
          rw [hdb0] at hproj
          simp only [List.map_nil, List.nil_append] at hproj
          by_cases hval : ms.filter legacyValid = []
          · have hall : ∀ msg ∈ ms, legacyValid msg = false := by
              intro m hm
              exact Bool.eq_false_iff.mpr ((List.filter_eq_nil_iff.mp hval) m hm)
            have h1 : ms.foldl (migrateStep now1) db = db :=
              fold_migrate_invalid now1 ms hall db
            rw [h1, hdb0]
            simp only [List.length_nil, gt_iff_lt, Nat.lt_irrefl, if_false]
            exact fold_migrate_invalid now2 ms hall db
          · have hlen : ((ms.foldl (migrateStep now1) db).messages.filter
                (fun m => m.conversationId == migratedConversationId)).length
                = (ms.filter legacyValid).length := by
              have hcl := congrArg List.length hproj
              simpa using hcl
            have hpos : ((ms.foldl (migrateStep now1) db).messages.filter
                (fun m => m.conversationId == migratedConversationId)).length > 0 := by
              rw [hlen]
              exact List.length_pos.mpr hval
            rw [if_pos hpos]

/-- Claim C1 (counterexample): a send whose response stream completes
after delivering zero chunks commits an assistant Turn with empty
content, so the claim that no completed send ever commits an empty Turn
is false at this input. -/
theorem emptyStreamCommitsEmptyTurn :
    (ask emptyDB "c" "hi" "" (.ok []) 7).messages
        = [⟨1, "c", "user", "hi", 7⟩, ⟨2, "c", "assistant", "", 7⟩] ∧
    ¬ (∀ m ∈ (ask emptyDB "c" "hi" "" (Except.ok []) 7).messages, m.content ≠ "") :=
  ⟨rfl, by decide⟩

/-- Claim C7 (counterexample): a legacy entry carrying the timestamp 0 is
migrated with the current time instead of its original timestamp (0 is
falsy in the ts-or-now idiom), so the claim that an original timestamp
of 0 is preserved is false at this input. -/
theorem migrationReplacesZeroTimestamp :
    (migrateFromLocalStorage true (.entries [⟨"user", "x", some 0⟩]) 12345
        emptyDB).messages
      = [⟨1, migratedConversationId, "user", "x", 12345⟩] ∧
    ¬ (∃ m ∈ (migrateFromLocalStorage true (.entries [⟨"user", "x", some 0⟩]) 12345
        emptyDB).messages, m.ts = 0) :=
  ⟨rfl, by decide⟩

/-- Well-formedness of the modelled store: surrogate keys strictly
increase along the insertion log, as the auto-increment key guarantees. -/
def WFdb (db : DB) : Prop := db.messages.Pairwise (fun a b => a.id < b.id)

/-- Claim C1 (amended): for every completed send with non-blank input
exactly two turns are appended, the user turn and one assistant turn; on
request or stream failure the committed error turn always carries
non-empty text; on stream completion the committed assistant turn
content is exactly the accumulated stream text — which is empty when the
stream delivers zero chunks, so in that one case an empty-content
assistant turn is committed. -/
theorem sendCommitsAccumulatedOrErrorTurn :
    ∀ (db : DB) (conversationId input kbCtx : String) (now : Nat),
    jsTrim input ≠ "" →
    (∀ cs : List String, ask db conversationId input kbCtx (.ok cs) now
        = ⟨db.messages ++ [⟨db.nextId, conversationId, "user", jsTrim input, now⟩,
            ⟨db.nextId + 1, conversationId, "assistant", streamBody cs, now⟩],
           db.nextId + 2⟩) ∧
    (∀ e : ProviderError, ∃ c : String,
        ask db conversationId input kbCtx (.error e) now
          = ⟨db.messages ++ [⟨db.nextId, conversationId, "user", jsTrim input, now⟩,
              ⟨db.nextId + 1, conversationId, "assistant", c, now⟩],
             db.nextId + 2⟩ ∧ c ≠ "") := by
  intro db conversationId input kbCtx now h
  refine ⟨fun cs => ask_ok_eq db conversationId input kbCtx cs now h, fun e => ?_⟩
  exact ⟨errorTurnContent (clientErrorMessage e),
    ask_error_eq db conversationId input kbCtx e now h,
    errorTurnContent_ne_empty _⟩

/-- Witness for C1 (amended) at a concrete input. -/
theorem sendCommitsAccumulatedOrErrorTurn_witness :
    (ask emptyDB "c" "hi" "" (.ok ["he", "llo"]) 7
        = ⟨[⟨1, "c", "user", "hi", 7⟩, ⟨2, "c", "assistant", "hello", 7⟩], 3⟩) ∧
    (∃ c : String, ask emptyDB "c" "hi" "" (.error ⟨none, none, "boom"⟩) 7
        = ⟨[⟨1, "c", "user", "hi", 7⟩, ⟨2, "c", "assistant", c, 7⟩], 3⟩ ∧ c ≠ "") :=
  ⟨(sendCommitsAccumulatedOrErrorTurn emptyDB "c" "hi" "" 7 (by decide)).1 ["he", "llo"],
   (sendCommitsAccumulatedOrErrorTurn emptyDB "c" "hi" "" 7 (by decide)).2 ⟨none, none, "boom"⟩⟩

/-- Claim C8: a relay response of status 429 with error code
insufficient_quota leads the send path to commit exactly one
assistant-role error turn (after the user turn), whose content is the
relayed quota message wrapped with the billing hint and contains the
phrase quota; the error is absorbed, never rethrown. -/
lemma extract_quota :
    extractErrorField (jsonError "API quota exceeded. Please check your OpenAI billing.")
      = some "API quota exceeded. Please check your OpenAI billing." := by decide

lemma clientErrorMessage_quota (m : String) :
    clientErrorMessage ⟨some 429, some "insufficient_quota", m⟩
      = "API quota exceeded. Please check your OpenAI billing." := by
  unfold clientErrorMessage
  simp only [show mapProviderError ⟨some 429, some "insufficient_quota", m⟩
      = ("API quota exceeded. Please check your OpenAI billing.", 429) from rfl,
    extract_quota]
  decide

theorem quotaErrorCommitsQuotaTurn :
    ∀ (db : DB) (conversationId input kbCtx errMsg : String) (now : Nat),
    jsTrim input ≠ "" →
    ask db conversationId input kbCtx
        (.error ⟨some 429, some "insufficient_quota", errMsg⟩) now
      = ⟨db.messages ++ [⟨db.nextId, conversationId, "user", jsTrim input, now⟩,
          ⟨db.nextId + 1, conversationId, "assistant",
            errorTurnContent "API quota exceeded. Please check your OpenAI billing.",
            now⟩],
         db.nextId + 2⟩ ∧
    strContainsSub "quota"
      (errorTurnContent "API quota exceeded. Please check your OpenAI billing.")
      = true := by
  intro db conversationId input kbCtx errMsg now h
  constructor
  · have hask := ask_error_eq db conversationId input kbCtx
      ⟨some 429, some "insufficient_quota", errMsg⟩ now h
    rw [hask]
    rw [clientErrorMessage_quota errMsg]
    rfl
  · rfl

/-- Witness for C8 at a concrete input. -/
theorem quotaErrorCommitsQuotaTurn_witness :
    ask emptyDB "c" "hi" "" (.error ⟨some 429, some "insufficient_quota", "err"⟩) 7
      = ⟨[⟨1, "c", "user", "hi", 7⟩,
          ⟨2, "c", "assistant",
            errorTurnContent "API quota exceeded. Please check your OpenAI billing.",
            7⟩], 3⟩ ∧
    strContainsSub "quota"
      (errorTurnContent "API quota exceeded. Please check your OpenAI billing.")
      = true :=
  quotaErrorCommitsQuotaTurn emptyDB "c" "hi" "" "err" 7 (by decide)

/-- Claim C4: for every store with increasing surrogate keys and every
conversation id, byConversation (loadConversation) succeeds and returns
exactly the turns of that conversation — a permutation of the
slice of the insertion log belonging to that conversation — strictly sorted by the pair
timestamp-then-surrogate-key (so non-decreasing in timestamp with ties
in insertion order); an unknown id yields the empty sequence, not an
error. -/
theorem byConversationOrdered :
    ∀ (db : DB) (conversationId : String), WFdb db →
    ∃ l, loadConversation true db conversationId = .ok l ∧
      List.Perm l (db.messages.filter (fun m => m.conversationId == conversationId)) ∧
      l.Pairwise turnLexLt ∧
      ((∀ m ∈ db.messages, m.conversationId ≠ conversationId) → l = []) := by
  intro db conversationId hwf
  refine ⟨sortByTs (db.messages.filter (fun m => m.conversationId == conversationId)),
    rfl, List.perm_insertionSort _ _, pairwise_sortByTs _ (hwf.filter _), ?_⟩
  intro h
  have hfil : db.messages.filter (fun m => m.conversationId == conversationId) = [] :=
    List.filter_eq_nil_iff.mpr (fun m hm => by simp [h m hm])
  rw [hfil]
  rfl

/-- Witness for C4 at a concrete store whose turns were inserted out of
timestamp order and with a timestamp tie. -/
theorem byConversationOrdered_witness :
    WFdb ⟨[⟨1, "c", "user", "b", 9⟩, ⟨2, "c", "user", "a", 3⟩,
           ⟨3, "c", "user", "t", 3⟩, ⟨4, "d", "user", "y", 1⟩], 5⟩ ∧
    ∃ l, loadConversation true
        ⟨[⟨1, "c", "user", "b", 9⟩, ⟨2, "c", "user", "a", 3⟩,
          ⟨3, "c", "user", "t", 3⟩, ⟨4, "d", "user", "y", 1⟩], 5⟩ "c" = .ok l ∧
      List.Perm l (List.filter (fun m => m.conversationId == "c")
        [⟨1, "c", "user", "b", 9⟩, ⟨2, "c", "user", "a", 3⟩,
         ⟨3, "c", "user", "t", 3⟩, ⟨4, "d", "user", "y", 1⟩]) ∧
      l.Pairwise turnLexLt ∧
      ((∀ m ∈ [(⟨1, "c", "user", "b", 9⟩ : ChatMessage), ⟨2, "c", "user", "a", 3⟩,
          ⟨3, "c", "user", "t", 3⟩, ⟨4, "d", "user", "y", 1⟩],
          m.conversationId ≠ "c") → l = []) :=
  ⟨by unfold WFdb; decide,
   byConversationOrdered
     ⟨[⟨1, "c", "user", "b", 9⟩, ⟨2, "c", "user", "a", 3⟩,
       ⟨3, "c", "user", "t", 3⟩, ⟨4, "d", "user", "y", 1⟩], 5⟩ "c"
     (by unfold WFdb; decide)⟩

/-- Claim C6: the payload window — getRecentMessages with limit 50 as
used by the send path — is the suffix of the chronologically sorted
conversation of length min 50 n (so a 120-turn conversation sends
exactly its most recent 50, in chronological order), while
byConversation still returns the full history. -/
theorem contextWindowCapped :
    ∀ (db : DB) (conversationId : String),
    ∃ full, loadConversation true db conversationId = .ok full ∧
      List.Perm full (db.messages.filter (fun m => m.conversationId == conversationId)) ∧
      getRecentMessages true db conversationId 50 = .ok (full.drop (full.length - 50)) ∧
      (full.drop (full.length - 50)).length = min 50 full.length ∧
      List.IsSuffix (full.drop (full.length - 50)) full := by
  intro db conversationId
  refine ⟨sortByTs (db.messages.filter (fun m => m.conversationId == conversationId)),
    rfl, List.perm_insertionSort _ _, ?_, ?_, List.drop_suffix _ _⟩
  · simp [getRecentMessages, loadConversation, Except.map, sliceLast]
  · rw [List.length_drop]
    omega

/-- Claim C7 (amended): on a fresh legacy blob (no prior turns under the
sentinel conversation), the migrator appends to the sentinel
conversation exactly the legacy entries with non-empty role and content,
in their original order, each keeping its original timestamp when that
timestamp is present and nonzero, and receiving the migration instant
when the timestamp is missing or zero. -/
theorem migrationFreshBlobKeepsValidEntries :
    ∀ (ms : List LegacyMessage) (now : Nat) (db : DB),
    db.messages.filter (fun m => m.conversationId == migratedConversationId) = [] →
    ((migrateFromLocalStorage true (.entries ms) now db).messages.filter
        (fun m => m.conversationId == migratedConversationId)).map proj3
      = (ms.filter legacyValid).map (legacyProj now) := by
  intro ms now db hfresh
  rw [migrate_entries]
  by_cases hms : ms.isEmpty = true
  · have hnil : ms = [] := List.isEmpty_iff.mp hms
    subst hnil
    simp [hfresh]
  · rw [if_neg hms, hfresh]
    simp only [List.length_nil, gt_iff_lt, Nat.lt_irrefl, if_false]
    have hproj := fold_migrate_proj now ms db
    rw [hfresh] at hproj
    simpa using hproj

/-- Witness for C7 (amended) on a fresh store and a blob holding a valid
entry with a kept timestamp, an invalid entry, and a valid entry without
a timestamp. -/
theorem migrationFreshBlobKeepsValidEntries_witness :
    (emptyDB.messages.filter (fun m => m.conversationId == migratedConversationId)
        = []) ∧
    ((migrateFromLocalStorage true
        (.entries [⟨"user", "a", some 7⟩, ⟨"", "bad", none⟩, ⟨"assistant", "z", none⟩])
        99 emptyDB).messages.filter
        (fun m => m.conversationId == migratedConversationId)).map proj3
      = ([(⟨"user", "a", some 7⟩ : LegacyMessage), ⟨"", "bad", none⟩,
          ⟨"assistant", "z", none⟩].filter legacyValid).map (legacyProj 99) :=
  ⟨rfl, migrationFreshBlobKeepsValidEntries
    [⟨"user", "a", some 7⟩, ⟨"", "bad", none⟩, ⟨"assistant", "z", none⟩] 99 emptyDB rfl⟩

/-- Claim C9: store operations are isolated per conversation — appending
a turn to conversation a (saveMessage) or deleting conversation a
(clearConversation) leaves byConversation of any other conversation b
unchanged, hence b keeps its turn count and the content of every turn. -/
theorem conversationIsolation :
    ∀ (db : DB) (message : NewMessage) (a b : String) (now : Nat),
    a ≠ b → message.conversationId = a →
    (∀ db2 newId, saveMessage true now message db = .ok (db2, newId) →
        loadConversation true db2 b = loadConversation true db b) ∧
    (∀ db3, clearConversation true db a = .ok db3 →
        loadConversation true db3 b = loadConversation true db b) := by
  intro db message a b now hab hcid
  have hb : (message.conversationId == b) = false := by
    rw [hcid]
    exact beq_eq_false_iff_ne.mpr hab
  constructor
  · intro db2 newId hsave
    rw [saveMessage_true] at hsave
    have hdb2 : db2 = ⟨db.messages ++
        [⟨db.nextId, message.conversationId, message.role, message.content,
          if message.ts = 0 then now else message.ts⟩], db.nextId + 1⟩ := by
      cases hsave
      rfl
    subst hdb2
    simp [loadConversation, List.filter_append, hb]
  · intro db3 hclear
    have hdb3 : db3 = ⟨db.messages.filter (fun m => !(m.conversationId == a)),
        db.nextId⟩ := by
      simpa [clearConversation] using hclear.symm
    subst hdb3
    simp only [loadConversation]
    have hff : (db.messages.filter (fun m => !(m.conversationId == a))).filter
        (fun m => m.conversationId == b)
        = db.messages.filter (fun m => m.conversationId == b) := by
      rw [List.filter_filter]
      apply List.filter_congr
      intro m hm
      by_cases hmb : m.conversationId = b
      · have hba : (b == a) = false := beq_eq_false_iff_ne.mpr (fun e => hab e.symm)
        simp [hmb, hba]
      · simp [beq_eq_false_iff_ne.mpr hmb]
    rw [hff]

/-- Witness for C9 at a concrete store: a save into conversation A and a
deletion of conversation A both leave conversation B as it was. -/
theorem conversationIsolation_witness :
    loadConversation true
        ⟨[⟨1, "B", "user", "x", 5⟩, ⟨2, "A", "user", "q", 4⟩,
          ⟨3, "A", "user", "y", 6⟩], 4⟩ "B"
      = loadConversation true
        ⟨[⟨1, "B", "user", "x", 5⟩, ⟨2, "A", "user", "q", 4⟩], 3⟩ "B" ∧
    loadConversation true ⟨[⟨1, "B", "user", "x", 5⟩], 3⟩ "B"
      = loadConversation true
        ⟨[⟨1, "B", "user", "x", 5⟩, ⟨2, "A", "user", "q", 4⟩], 3⟩ "B" :=
  ⟨(conversationIsolation ⟨[⟨1, "B", "user", "x", 5⟩, ⟨2, "A", "user", "q", 4⟩], 3⟩
      ⟨"A", "user", "y", 0⟩ "A" "B" 6 (by decide) rfl).1 _ 3 rfl,
   (conversationIsolation ⟨[⟨1, "B", "user", "x", 5⟩, ⟨2, "A", "user", "q", 4⟩], 3⟩
      ⟨"A", "user", "y", 0⟩ "A" "B" 6 (by decide) rfl).2 _ rfl⟩

end Aurax
